import Mathlib

/-!
Verification development for the WhimcMP data-validator core (`src/app.py`).

The embedding models the validation engine of the application:
field-level checks, the per-row validator `validate_row` together with its
seen-identifier session state, the table-validation loop, the aggregate
statistics, and the error aggregation / filtering used by the error views.

Cells of the input table are modelled as `Option String`: `none` stands for
an absent value (Python `None` / pandas `NaN`, the values on which `pd.isna`
is true), `some s` for a present string value.  Numeric parsing models
CPython's `int(str)` / `float(str)` literal grammar (whitespace stripping,
optional sign, underscore-separated digit groups, decimal point, exponent,
and the special float words `inf`/`infinity`/`nan`), with float values kept
as exact rationals plus explicit infinity/NaN markers.  Date parsing models
`datetime.strptime` restricted to the two format strings appearing in the
source, `"%d/%m/%Y"` and `"%m-%d-%Y"`: a whole-string match of the three
numeric fields separated by the literal separator, with range checks on the
tokens and calendar validity of the resulting date.
-/

namespace WhimcMP

/-! ### Digit groups and numeric literal parsing (models CPython `int`/`float`) -/

/-- Numeric value of a list of decimal digit characters. -/
def natOfDigits (l : List Char) : Nat :=
  l.foldl (fun acc c => acc * 10 + (c.toNat - 48)) 0

/-- Tail of a digit group: digits, possibly with single underscores between
digits (the rule for Python numeric literals). -/
def digitGroupRest : List Char → Bool
  | [] => true
  | '_' :: c :: rest => c.isDigit && digitGroupRest rest
  | '_' :: [] => false
  | c :: rest => c.isDigit && digitGroupRest rest

/-- A non-empty digit group as accepted inside Python numeric literals:
starts and ends with a digit, single underscores allowed between digits. -/
def digitGroupOk : List Char → Bool
  | [] => false
  | c :: rest => c.isDigit && digitGroupRest rest

/-- Numeric value of a digit group, ignoring the underscores. -/
def groupVal (l : List Char) : Nat :=
  natOfDigits (l.filter (fun c => c != '_'))

/-- Strip leading and trailing whitespace, as `int(str)`/`float(str)` do. -/
def pyStrip (l : List Char) : List Char :=
  ((l.dropWhile Char.isWhitespace).reverse.dropWhile Char.isWhitespace).reverse

/-- Python `int(...)` on a string body: optional sign followed by a digit
group. -/
def pyIntOfChars : List Char → Option Int
  | '+' :: rest => if digitGroupOk rest then some (groupVal rest : Int) else none
  | '-' :: rest => if digitGroupOk rest then some (-(groupVal rest : Int)) else none
  | l => if digitGroupOk l then some (groupVal l : Int) else none

/-- Python `int(str)`: strip whitespace, then parse an integer literal.
Returns `none` where CPython raises `ValueError`. -/
def pyInt? (s : String) : Option Int :=
  pyIntOfChars (pyStrip s.data)

/-- Result of Python `float(str)`: a finite decimal kept exactly as a signed
integer mantissa together with a power-of-ten exponent (the parsed value is
`mant * 10 ^ exp10`), a signed infinity, or NaN. -/
inductive PyFloat where
  | finite (mant : Int) (exp10 : Int)
  | infinite (neg : Bool)
  | nan
deriving DecidableEq

/-- Negativity test used by the price check (`parsed < 0`): a finite value
`mant * 10 ^ exp10` is negative exactly when its mantissa is; NaN compares
false, `-inf` compares true. -/
def PyFloat.isNeg : PyFloat → Bool
  | .finite mant _ => decide (mant < 0)
  | .infinite neg => neg
  | .nan => false

/-- Mantissa of a float literal: `digits`, `digits.`, `digits.digits` or
`.digits`, each digit group subject to the underscore rule. -/
def mantissaOk (l : List Char) : Bool :=
  match l.splitOn '.' with
  | [a] => digitGroupOk a
  | [a, b] => (digitGroupOk a && (b.isEmpty || digitGroupOk b)) ||
      (a.isEmpty && digitGroupOk b)
  | _ => false

/-- Exact value of a float-literal mantissa, as an integer mantissa and the
power-of-ten exponent contributed by the fractional part: `"a.b"` denotes
`(a * 10 ^ |b| + b) * 10 ^ (-|b|)` where `|b|` counts the fraction digits. -/
def mantissaParts (l : List Char) : Int × Int :=
  match l.splitOn '.' with
  | [a] => ((groupVal a : Int), 0)
  | [a, b] =>
    let fb := (b.filter (fun c => c != '_')).length
    (((groupVal a) * 10 ^ fb + groupVal b : Int), -(fb : Int))
  | _ => (0, 0)

/-- Exponent part of a float literal: optional sign then a digit group. -/
def expPartOk : List Char → Bool
  | '+' :: rest => digitGroupOk rest
  | '-' :: rest => digitGroupOk rest
  | l => digitGroupOk l

/-- Signed value of a float-literal exponent part. -/
def expPartVal : List Char → Int
  | '+' :: rest => (groupVal rest : Int)
  | '-' :: rest => -(groupVal rest : Int)
  | l => (groupVal l : Int)

/-- Python `float(...)` on a stripped character list: optional sign, then
either one of the special words (case-insensitive) or a numeric literal
with optional exponent. -/
def pyFloatOfChars (l : List Char) : Option PyFloat :=
  let sb : Bool × List Char :=
    match l with
    | '+' :: rest => (false, rest)
    | '-' :: rest => (true, rest)
    | rest => (false, rest)
  let neg := sb.1
  let lower := sb.2.map Char.toLower
  if lower = "inf".data ∨ lower = "infinity".data then some (.infinite neg)
  else if lower = "nan".data then some .nan
  else
    match lower.splitOn 'e' with
    | [m] =>
      if mantissaOk m then
        some (.finite ((if neg then -1 else 1) * (mantissaParts m).1)
          (mantissaParts m).2)
      else none
    | [m, ex] =>
      if mantissaOk m && expPartOk ex then
        some (.finite ((if neg then -1 else 1) * (mantissaParts m).1)
          ((mantissaParts m).2 + expPartVal ex))
      else none
    | _ => none

/-- Python `float(str)`: strip whitespace, then parse a float literal.
Returns `none` where CPython raises `ValueError`. -/
def pyFloat? (s : String) : Option PyFloat :=
  pyFloatOfChars (pyStrip s.data)

/-! ### Date validation (models `validate_date`, src/app.py lines 68-76) -/

/-- Length of a month, Gregorian calendar (what `datetime` accepts). -/
def daysInMonth (y m : Nat) : Nat :=
  if m = 2 then
    (if y % 4 = 0 ∧ (y % 100 ≠ 0 ∨ y % 400 = 0) then 29 else 28)
  else if m = 4 ∨ m = 6 ∨ m = 9 ∨ m = 11 then 30
  else 31

/-- Token accepted by `strptime`'s `%d`/`%m` directives: one or two decimal
digits whose value lies in the directive's range. -/
def tokNum (l : List Char) (lo hi : Nat) : Bool :=
  (decide (l.length = 1 ∨ l.length = 2)) && l.all Char.isDigit &&
    decide (lo ≤ natOfDigits l) && decide (natOfDigits l ≤ hi)

/-- Token accepted by `strptime`'s `%d` directive. -/
def dayTok (l : List Char) : Bool := tokNum l 1 31

/-- Token accepted by `strptime`'s `%m` directive. -/
def monthTok (l : List Char) : Bool := tokNum l 1 12

/-- Token accepted by `strptime`'s `%Y` directive, restricted to years the
`datetime` constructor accepts: exactly four digits, value at least 1. -/
def yearTok (l : List Char) : Bool :=
  decide (l.length = 4) && l.all Char.isDigit && decide (1 ≤ natOfDigits l)

/-- Calendar validity of the parsed day within its month. -/
def calendarOk (d m y : Nat) : Bool :=
  decide (d ≤ daysInMonth y m)

/-- Field order of a date format: day/month/year or month-day/year. -/
inductive DateOrder where
  | dmy
  | mdy
deriving DecidableEq

/-- One of the two fixed date formats of the source: a separator character
and a field order. -/
structure DateFormat where
  sep : Char
  ord : DateOrder

/-- Whole-string `strptime` match of `value` against a three-field numeric
date format: the string splits at the separator into exactly three tokens,
each token matches its directive, and the date is calendar-valid. -/
def strptimeOk (fmt : DateFormat) (value : String) : Bool :=
  match value.data.splitOn fmt.sep with
  | [t1, t2, t3] =>
    let dm : List Char × List Char :=
      match fmt.ord with
      | .dmy => (t1, t2)
      | .mdy => (t2, t1)
    dayTok dm.1 && monthTok dm.2 && yearTok t3 &&
      calendarOk (natOfDigits dm.1) (natOfDigits dm.2) (natOfDigits t3)
  | _ => false

/-- The two formats tried by `validate_date`: `"%d/%m/%Y"` and `"%m-%d-%Y"`. -/
def dateFormats : List DateFormat :=
  [⟨'/', .dmy⟩, ⟨'-', .mdy⟩]

/-- Model of `validate_date` (src/app.py lines 68-76): the value parses
under at least one of the two fixed formats. -/
def validate_date (value : String) : Bool :=
  dateFormats.any (fun fmt => strptimeOk fmt value)

/-! ### Rows, verdicts and the row validator (src/app.py lines 78-115) -/

/-- An input cell: `none` models an absent value (`pd.isna` true), `some s`
a present string value. -/
abbrev Cell := Option String

/-- One input row, restricted to the five schema columns the validator
reads. -/
structure Row where
  order_id : Cell
  item : Cell
  date : Cell
  quantity : Cell
  price : Cell
deriving DecidableEq, Inhabited

/-- Per-row output: the status string, the joined error message stored in
the `error_message` column, and the underlying list of reasons that was
joined (the source's local `errors` list). -/
structure Verdict where
  status : String
  message : String
  errors : List String
deriving DecidableEq, Inhabited

/-- Identifier check (src/app.py lines 82-87): absent value yields
"Missing order_id"; a present value already in the session's seen set
yields "Duplicate order_id". -/
def checkOrderId (oid : Cell) (seen_ids : List String) : List String :=
  match oid with
  | none => ["Missing order_id"]
  | some v => if seen_ids.contains v then ["Duplicate order_id"] else []

/-- Seen-set update of the identifier branch: a present identifier is added
to the session's seen set (whether or not it was a duplicate); an absent
one is not. -/
def updateSeen (oid : Cell) (seen_ids : List String) : List String :=
  match oid with
  | none => seen_ids
  | some v => seen_ids.insert v

/-- Item check (src/app.py lines 90-91): absent, or blank after stripping
leading and trailing whitespace (Python `str.strip`). -/
def checkItem (item : Cell) : List String :=
  match item with
  | none => ["Missing item"]
  | some v => if pyStrip v.data = [] then ["Missing item"] else []

/-- Date check (src/app.py lines 93-95): absent or failing both formats. -/
def checkDate (date : Cell) : List String :=
  match date with
  | none => ["Invalid date (dd/mm/yyyy or mm-dd-yyyy)"]
  | some v =>
    if validate_date v then [] else ["Invalid date (dd/mm/yyyy or mm-dd-yyyy)"]

/-- Quantity check (src/app.py lines 97-103): `int(...)` failure (including
an absent value) yields "Invalid quantity"; a parsed negative value yields
"Negative quantity". -/
def checkQuantity (quantity : Cell) : List String :=
  match quantity.bind pyInt? with
  | none => ["Invalid quantity"]
  | some q => if q < 0 then ["Negative quantity"] else []

/-- Price check (src/app.py lines 105-111): `float(...)` failure (including
an absent value) yields "Invalid price"; a parsed negative value yields
"Negative price". -/
def checkPrice (price : Cell) : List String :=
  match price.bind pyFloat? with
  | none => ["Invalid price"]
  | some v => if v.isNeg then ["Negative price"] else []

/-- Python `"; ".join(...)`. -/
def pyJoin (sep : String) : List String → String
  | [] => ""
  | [a] => a
  | a :: rest => a ++ sep ++ pyJoin sep rest

/-- Model of `validate_row` (src/app.py lines 78-115): runs the five field
checks in source order, accumulating every failing check's reason, updates
the session's seen set, and returns the verdict (with the reasons joined by
`"; "` into the message, as the source returns). -/
def validate_row (row : Row) (seen_ids : List String) : Verdict × List String :=
  let errors :=
    checkOrderId row.order_id seen_ids ++ checkItem row.item ++
      checkDate row.date ++ checkQuantity row.quantity ++ checkPrice row.price
  let seen' := updateSeen row.order_id seen_ids
  if errors.isEmpty then (⟨"Valid", "No errors", errors⟩, seen')
  else (⟨"Invalid", pyJoin "; " errors, errors⟩, seen')

/-! ### Table validation and statistics (src/app.py lines 175-196) -/

/-- Validation loop body: thread the seen set through the rows in order. -/
def validateTableAux : List String → List Row → List Verdict
  | _, [] => []
  | seen, r :: rest =>
    let p := validate_row r seen
    p.1 :: validateTableAux p.2 rest

/-- Model of the validation loop (src/app.py lines 175-190): a fresh
session (`seen_ids = set()`), then one verdict per row in order. -/
def validate_table (rows : List Row) : List Verdict :=
  validateTableAux [] rows

/-- Session state after validating a prefix of the table: the seen set
threaded through the first `i` rows. -/
def seenUpTo (rows : List Row) (i : Nat) : List String :=
  (rows.take i).foldl (fun seen r => (validate_row r seen).2) []

/-- Count of rows whose status is "Valid" (src/app.py line 194). -/
def validCount (vs : List Verdict) : Nat :=
  (vs.filter (fun v => v.status == "Valid")).length

/-- The invalid subset of the verdicts, in order (`df[df["status"] ==
"Invalid"]`). -/
def invalidOf (vs : List Verdict) : List Verdict :=
  vs.filter (fun v => v.status == "Invalid")

/-- Model of `validation_rate` (src/app.py line 196):
`(valid / total * 100) if total > 0 else 0`. -/
def validation_rate (vs : List Verdict) : ℚ :=
  if 0 < vs.length then ((validCount vs : ℚ) / (vs.length : ℚ)) * 100 else 0

/-! ### Error aggregation and filtering (src/app.py lines 327-336, 389-409) -/

/-- Python substring containment `needle in hay`. -/
def pyInStr (needle hay : String) : Bool :=
  decide (needle.data <:+: hay.data)

/-- Python `str.split("; ")` scanning: leftmost occurrences of the
two-character separator delimit the fields. -/
def pySplitSC (acc : List Char) : List Char → List (List Char)
  | [] => [acc.reverse]
  | c :: rest =>
    if c = ';' ∧ rest.head? = some ' ' then acc.reverse :: pySplitSC [] rest.tail
    else pySplitSC (c :: acc) rest
termination_by l => l.length
decreasing_by
  · simp [List.length_tail]
    omega
  · simp

/-- Python `msg.split("; ")`. -/
def pySplit (s : String) : List String :=
  (pySplitSC [] s.data).map fun l => ⟨l⟩

/-- Error aggregation (src/app.py lines 327-329 and 389-391): every entry
obtained by splitting an invalid row's error message. -/
def errorList (vs : List Verdict) : List String :=
  ((invalidOf vs).map (fun v => pySplit v.message)).flatten

/-- The distinct reason keys of the error-frequency report (the keys of
`Counter(error_list)`, equivalently the option set of the error filter). -/
def errorKeys (vs : List Verdict) : List String :=
  (errorList vs).dedup

/-- Model of the error filter (src/app.py lines 402-409): with a non-empty
selection, keep the invalid rows whose error message contains at least one
selected string as a substring; with an empty selection, keep everything. -/
def filter_by_reasons (invalid_vs : List Verdict) (selected : List String) :
    List Verdict :=
  if selected.isEmpty then invalid_vs
  else invalid_vs.filter (fun v => selected.any (fun err => pyInStr err v.message))

/-- The eight reason strings the row validator can produce. -/
def canonicalReasons : List String :=
  ["Missing order_id", "Duplicate order_id", "Missing item",
   "Invalid date (dd/mm/yyyy or mm-dd-yyyy)", "Invalid quantity",
   "Negative quantity", "Invalid price", "Negative price"]

/-! ### Concrete example rows used to instantiate the theorems -/

/-- A fully valid row with identifier "A". -/
def rowA : Row :=
  ⟨some "A", some "pen", some "31/12/2024", some "2", some "3.5"⟩

/-- A fully valid row with identifier "B". -/
def rowB : Row :=
  ⟨some "B", some "pen", some "31/12/2024", some "2", some "3.5"⟩

/-- The identifier sequence [A, A, B] of the specification's example. -/
def rowsAAB : List Row := [rowA, rowA, rowB]

/-- A row whose identifier is blank (the empty string) but present. -/
def blankIdRow : Row :=
  ⟨some "", some "pen", some "31/12/2024", some "2", some "3.5"⟩

/-- A row whose identifier is absent. -/
def absentIdRow : Row :=
  ⟨none, some "pen", some "31/12/2024", some "2", some "3.5"⟩

/-- A row with quantity "-5" (parseable, negative). -/
def qtyNegRow : Row :=
  ⟨some "Q1", some "pen", some "31/12/2024", some "-5", some "3.5"⟩

/-- A row with quantity "abc" (unparseable). -/
def qtyAbcRow : Row :=
  ⟨some "Q2", some "pen", some "31/12/2024", some "abc", some "3.5"⟩

/-- An invalid row: the item is absent. -/
def noItemRow : Row :=
  ⟨some "X1", none, some "31/12/2024", some "2", some "3.5"⟩

/-- An invalid row: the date parses under neither format. -/
def badDateRow : Row :=
  ⟨some "X2", some "pen", some "2024/12/31", some "2", some "3.5"⟩

/-- A two-row table with one valid and one invalid row. -/
def mixedRows : List Row := [rowA, noItemRow]

/-- A two-row table whose invalid rows carry different reasons. -/
def filterRows : List Row := [noItemRow, badDateRow]

/-! ### Basic lemmas about the row validator -/

theorem validate_row_errors (row : Row) (seen : List String) :
    (validate_row row seen).1.errors =
      checkOrderId row.order_id seen ++ checkItem row.item ++
        checkDate row.date ++ checkQuantity row.quantity ++ checkPrice row.price := by
  simp only [validate_row]
  split <;> rfl

theorem validate_row_seen (row : Row) (seen : List String) :
    (validate_row row seen).2 = updateSeen row.order_id seen := by
  simp only [validate_row]
  split <;> rfl

theorem validate_row_invalid_iff (row : Row) (seen : List String) :
    (validate_row row seen).1.status = "Invalid" ↔
      (validate_row row seen).1.errors ≠ [] := by
  simp only [validate_row]
  split
  · rename_i h
    have heq := List.isEmpty_eq_true.mp h
    constructor
    · intro hst
      have hvi : ("Valid" : String) ≠ "Invalid" := by decide
      exact absurd hst hvi
    · intro hne
      exact absurd heq hne
  · rename_i h
    constructor
    · intro _ hc
      exact h (List.isEmpty_eq_true.mpr hc)
    · intro _
      rfl

theorem validate_row_valid_iff (row : Row) (seen : List String) :
    (validate_row row seen).1.status = "Valid" ↔
      (validate_row row seen).1.errors = [] := by
  simp only [validate_row]
  split
  · rename_i h
    have heq := List.isEmpty_eq_true.mp h
    constructor
    · intro _
      exact heq
    · intro _
      rfl
  · rename_i h
    constructor
    · intro hst
      have hiv : ("Invalid" : String) ≠ "Valid" := by decide
      exact absurd hst hiv
    · intro hc
      exact absurd (List.isEmpty_eq_true.mpr hc) h

theorem validate_row_message_of_invalid (row : Row) (seen : List String)
    (h : (validate_row row seen).1.errors ≠ []) :
    (validate_row row seen).1.message = pyJoin "; " (validate_row row seen).1.errors := by
  revert h
  simp only [validate_row]
  split
  · rename_i hemp
    simp only [List.isEmpty_eq_true] at hemp
    intro h
    exact absurd hemp h
  · intro _
    rfl

theorem mem_checkOrderId {e : String} {oid : Cell} {seen : List String}
    (h : e ∈ checkOrderId oid seen) :
    e = "Missing order_id" ∨ e = "Duplicate order_id" := by
  cases oid with
  | none =>
    simp only [checkOrderId, List.mem_singleton] at h
    exact Or.inl h
  | some v =>
    simp only [checkOrderId] at h
    split at h
    · simp at h; exact Or.inr h
    · simp at h

theorem mem_checkItem {e : String} {c : Cell} (h : e ∈ checkItem c) :
    e = "Missing item" := by
  cases c with
  | none => simpa [checkItem] using h
  | some v =>
    simp only [checkItem] at h
    split at h
    · simpa using h
    · simp at h

theorem mem_checkDate {e : String} {c : Cell} (h : e ∈ checkDate c) :
    e = "Invalid date (dd/mm/yyyy or mm-dd-yyyy)" := by
  cases c with
  | none => simpa [checkDate] using h
  | some v =>
    simp only [checkDate] at h
    split at h
    · simp at h
    · simpa using h

theorem mem_checkQuantity {e : String} {c : Cell} (h : e ∈ checkQuantity c) :
    e = "Invalid quantity" ∨ e = "Negative quantity" := by
  unfold checkQuantity at h
  cases hp : c.bind pyInt? with
  | none =>
    rw [hp] at h
    dsimp only at h
    simp at h
    exact Or.inl h
  | some q =>
    rw [hp] at h
    dsimp only at h
    split at h
    · simp at h; exact Or.inr h
    · simp at h

theorem mem_checkPrice {e : String} {c : Cell} (h : e ∈ checkPrice c) :
    e = "Invalid price" ∨ e = "Negative price" := by
  unfold checkPrice at h
  cases hp : c.bind pyFloat? with
  | none =>
    rw [hp] at h
    dsimp only at h
    simp at h
    exact Or.inl h
  | some q =>
    rw [hp] at h
    dsimp only at h
    split at h
    · simp at h; exact Or.inr h
    · simp at h

theorem errors_canonical {e : String} (row : Row) (seen : List String)
    (h : e ∈ (validate_row row seen).1.errors) : e ∈ canonicalReasons := by
  rw [validate_row_errors] at h
  simp only [List.mem_append] at h
  unfold canonicalReasons
  rcases h with ((((h | h) | h) | h) | h)
  · rcases mem_checkOrderId h with h | h <;> simp [h]
  · rw [mem_checkItem h]; simp
  · rw [mem_checkDate h]; simp
  · rcases mem_checkQuantity h with h | h <;> simp [h]
  · rcases mem_checkPrice h with h | h <;> simp [h]

theorem contains_iff_mem {l : List String} {a : String} :
    l.contains a = true ↔ a ∈ l := by
  simp [List.contains]

theorem dup_mem_checkOrderId {oid : Cell} {seen : List String} :
    "Duplicate order_id" ∈ checkOrderId oid seen ↔
      ∃ v, oid = some v ∧ v ∈ seen := by
  cases oid with
  | none => simp [checkOrderId]
  | some v =>
    by_cases hv : v ∈ seen
    · simp [checkOrderId, contains_iff_mem.mpr hv, hv]
    · have : seen.contains v = false := by
        rcases hb : seen.contains v
        · rfl
        · exact absurd (contains_iff_mem.mp hb) hv
      simp [checkOrderId, this, hv]

theorem missing_mem_checkOrderId {oid : Cell} {seen : List String} :
    "Missing order_id" ∈ checkOrderId oid seen ↔ oid = none := by
  cases oid with
  | none => simp [checkOrderId]
  | some v =>
    simp only [checkOrderId]
    split <;> simp

theorem missing_mem_checkItem {c : Cell} :
    "Missing item" ∈ checkItem c ↔
      (c = none ∨ ∃ v, c = some v ∧ pyStrip v.data = []) := by
  cases c with
  | none => simp [checkItem]
  | some v =>
    simp only [checkItem]
    split
    · rename_i h
      simp [h]
    · rename_i h
      simp [h]

theorem date_mem_checkDate {c : Cell} :
    "Invalid date (dd/mm/yyyy or mm-dd-yyyy)" ∈ checkDate c ↔
      (c = none ∨ ∃ v, c = some v ∧ validate_date v = false) := by
  cases c with
  | none => simp [checkDate]
  | some v =>
    simp only [checkDate]
    split
    · rename_i h
      simp [h]
    · rename_i h
      simp [Bool.eq_false_iff.mpr h]

theorem invalid_mem_checkQuantity {c : Cell} :
    "Invalid quantity" ∈ checkQuantity c ↔ c.bind pyInt? = none := by
  unfold checkQuantity
  cases hp : c.bind pyInt? with
  | none => simp
  | some q =>
    dsimp only
    split <;> simp

theorem neg_mem_checkQuantity {c : Cell} :
    "Negative quantity" ∈ checkQuantity c ↔
      ∃ n, c.bind pyInt? = some n ∧ n < 0 := by
  unfold checkQuantity
  cases hp : c.bind pyInt? with
  | none => simp
  | some q =>
    dsimp only
    split
    · rename_i h
      simp [h]
    · rename_i h
      simp
      omega

theorem invalid_mem_checkPrice {c : Cell} :
    "Invalid price" ∈ checkPrice c ↔ c.bind pyFloat? = none := by
  unfold checkPrice
  cases hp : c.bind pyFloat? with
  | none => simp
  | some q =>
    dsimp only
    split <;> simp

theorem neg_mem_checkPrice {c : Cell} :
    "Negative price" ∈ checkPrice c ↔
      ∃ v, c.bind pyFloat? = some v ∧ v.isNeg = true := by
  unfold checkPrice
  cases hp : c.bind pyFloat? with
  | none => simp
  | some q =>
    dsimp only
    split
    · rename_i h
      simp [h]
    · rename_i h
      simp
      simpa using h

/-! ### Lemmas about the table-validation loop -/

theorem validateTableAux_length (seen : List String) (rows : List Row) :
    (validateTableAux seen rows).length = rows.length := by
  induction rows generalizing seen with
  | nil => rfl
  | cons r rest ih => simp only [validateTableAux, List.length_cons, ih]

theorem validate_table_length (rows : List Row) :
    (validate_table rows).length = rows.length :=
  validateTableAux_length [] rows

theorem mem_updateSeen {x : String} {oid : Cell} {seen : List String} :
    x ∈ updateSeen oid seen ↔ oid = some x ∨ x ∈ seen := by
  cases oid with
  | none => simp [updateSeen]
  | some v =>
    simp only [updateSeen, List.mem_insert_iff, Option.some.injEq]
    constructor
    · rintro (h | h)
      · exact Or.inl h.symm
      · exact Or.inr h
    · rintro (h | h)
      · exact Or.inl h.symm
      · exact Or.inr h

theorem mem_foldSeen (rows : List Row) (seen : List String) (x : String) :
    x ∈ rows.foldl (fun s r => (validate_row r s).2) seen ↔
      x ∈ seen ∨ ∃ r ∈ rows, r.order_id = some x := by
  induction rows generalizing seen with
  | nil => simp
  | cons r rest ih =>
    rw [List.foldl_cons, ih, validate_row_seen, mem_updateSeen]
    simp only [List.mem_cons]
    constructor
    · rintro ((h | h) | ⟨r', hr', ho⟩)
      · exact Or.inr ⟨r, Or.inl rfl, h⟩
      · exact Or.inl h
      · exact Or.inr ⟨r', Or.inr hr', ho⟩
    · rintro (h | ⟨r', hr' | hr', ho⟩)
      · exact Or.inl (Or.inr h)
      · exact Or.inl (Or.inl (hr' ▸ ho))
      · exact Or.inr ⟨r', hr', ho⟩

theorem validateTableAux_getD (rows : List Row) (seen : List String) (i : Nat)
    (h : i < rows.length) :
    (validateTableAux seen rows).getD i default =
      (validate_row (rows.getD i default)
        ((rows.take i).foldl (fun s r => (validate_row r s).2) seen)).1 := by
  induction rows generalizing seen i with
  | nil => cases h
  | cons r rest ih =>
    cases i with
    | zero => simp [validateTableAux]
    | succ n =>
      have hn : n < rest.length := by simpa using h
      simp only [validateTableAux, List.getD_cons_succ, List.take_succ_cons,
        List.foldl_cons]
      exact ih (validate_row r seen).2 n hn

theorem validate_table_getD (rows : List Row) (i : Nat) (h : i < rows.length) :
    (validate_table rows).getD i default =
      (validate_row (rows.getD i default) (seenUpTo rows i)).1 :=
  validateTableAux_getD rows [] i h

theorem mem_seenUpTo {rows : List Row} {i : Nat} {x : String} :
    x ∈ seenUpTo rows i ↔
      ∃ j, j < i ∧ (rows.getD j default).order_id = some x := by
  unfold seenUpTo
  rw [mem_foldSeen]
  simp only [List.not_mem_nil, false_or]
  constructor
  · rintro ⟨r, hr, hoid⟩
    rcases List.mem_iff_getElem.mp hr with ⟨n, hn, hrn⟩
    have hmin : n < min i rows.length := by simpa [List.length_take] using hn
    refine ⟨n, (Nat.lt_min.mp hmin).1, ?_⟩
    rw [List.getD_eq_getElem _ _ (Nat.lt_min.mp hmin).2]
    rw [List.getElem_take] at hrn
    rw [hrn]
    exact hoid
  · rintro ⟨j, hj, hoid⟩
    have hjlen : j < rows.length := by
      by_contra hge
      push_neg at hge
      rw [List.getD_eq_default _ _ hge] at hoid
      exact Option.noConfusion hoid
    refine ⟨rows.get ⟨j, hjlen⟩, ?_, ?_⟩
    · apply List.mem_iff_getElem.mpr
      have hjt : j < (rows.take i).length := by
        simp only [List.length_take]
        exact Nat.lt_min.mpr ⟨hj, hjlen⟩
      refine ⟨j, hjt, ?_⟩
      simp
    · rw [List.get_eq_getElem, ← List.getD_eq_getElem _ _ hjlen]
      exact hoid

theorem dup_mem_validate_row {row : Row} {seen : List String} :
    "Duplicate order_id" ∈ (validate_row row seen).1.errors ↔
      ∃ v, row.order_id = some v ∧ v ∈ seen := by
  rw [validate_row_errors]
  simp only [List.mem_append]
  constructor
  · rintro ((((h | h) | h) | h) | h)
    · exact dup_mem_checkOrderId.mp h
    · exact absurd (mem_checkItem h) (by decide)
    · exact absurd (mem_checkDate h) (by decide)
    · rcases mem_checkQuantity h with h | h <;> exact absurd h (by decide)
    · rcases mem_checkPrice h with h | h <;> exact absurd h (by decide)
  · intro h
    exact Or.inl (Or.inl (Or.inl (Or.inl (dup_mem_checkOrderId.mpr h))))

theorem missing_mem_validate_row {row : Row} {seen : List String} :
    "Missing order_id" ∈ (validate_row row seen).1.errors ↔
      row.order_id = none := by
  rw [validate_row_errors]
  simp only [List.mem_append]
  constructor
  · rintro ((((h | h) | h) | h) | h)
    · exact missing_mem_checkOrderId.mp h
    · exact absurd (mem_checkItem h) (by decide)
    · exact absurd (mem_checkDate h) (by decide)
    · rcases mem_checkQuantity h with h | h <;> exact absurd h (by decide)
    · rcases mem_checkPrice h with h | h <;> exact absurd h (by decide)
  · intro h
    exact Or.inl (Or.inl (Or.inl (Or.inl (missing_mem_checkOrderId.mpr h))))

/-! ### Substring reasoning for the joined error messages -/

theorem prefix_of_append_cons {α : Type _} {e D B : List α} {c : α}
    (hc : c ∉ e) : e <+: (D ++ c :: B) ↔ e <+: D := by
  induction e generalizing D with
  | nil => simp
  | cons y e' ihe =>
    have hcy : c ≠ y := fun h => hc (h ▸ List.mem_cons_self y e')
    have hce' : c ∉ e' := fun h => hc (List.mem_cons_of_mem y h)
    cases D with
    | nil =>
      simp only [List.nil_append]
      constructor
      · intro h
        rcases List.cons_prefix_cons.mp h with ⟨hyc, _⟩
        exact absurd hyc.symm hcy
      · intro h
        rcases List.prefix_nil.mp h with h
        exact absurd h (by simp)
    | cons d D' =>
      simp only [List.cons_append, List.cons_prefix_cons]
      constructor
      · rintro ⟨hyd, h⟩
        exact ⟨hyd, (ihe hce').mp h⟩
      · rintro ⟨hyd, h⟩
        exact ⟨hyd, (ihe hce').mpr h⟩

theorem infix_append_cons {α : Type _} {e A B : List α} {c : α}
    (hc : c ∉ e) : e <:+: (A ++ c :: B) ↔ e <:+: A ∨ e <:+: B := by
  induction A with
  | nil =>
    simp only [List.nil_append]
    rw [List.infix_cons_iff]
    constructor
    · rintro (h | h)
      · cases e with
        | nil => exact Or.inl (by simp)
        | cons y e' =>
          rcases List.cons_prefix_cons.mp h with ⟨hyc, _⟩
          exact absurd (hyc ▸ List.mem_cons_self y e') hc
      · exact Or.inr h
    · rintro (h | h)
      · rw [List.infix_nil] at h
        subst h
        exact Or.inl List.nil_prefix
      · exact Or.inr h
  | cons a A' ihA =>
    simp only [List.cons_append]
    rw [List.infix_cons_iff, ihA, List.infix_cons_iff]
    constructor
    · rintro (h | h | h)
      · exact Or.inl (Or.inl ((prefix_of_append_cons hc).mp (by simpa using h)))
      · exact Or.inl (Or.inr h)
      · exact Or.inr h
    · rintro ((h | h) | h)
      · refine Or.inl ?_
        have := (prefix_of_append_cons (B := B) hc).mpr h
        simpa using this
      · exact Or.inr (Or.inl h)
      · exact Or.inr (Or.inr h)

theorem canonical_infix_iff :
    ∀ e ∈ canonicalReasons, ∀ r ∈ canonicalReasons,
      (e.data <:+: r.data ↔ e = r) := by decide

theorem canonical_props :
    ∀ e ∈ canonicalReasons,
      (';' ∉ e.data) ∧ e.data ≠ [] ∧ e.data.head? ≠ some ' ' := by decide

theorem infix_pyJoin_iff (e : String) (he : e ∈ canonicalReasons) :
    ∀ (errs : List String), (∀ x ∈ errs, x ∈ canonicalReasons) →
      (e.data <:+: (pyJoin "; " errs).data ↔ e ∈ errs)
  | [], _ => by
    constructor
    · intro h
      rw [show (pyJoin "; " []).data = [] from rfl, List.infix_nil] at h
      exact absurd h (canonical_props e he).2.1
    · intro h
      simp at h
  | [a], hcan => by
    rw [show pyJoin "; " [a] = a from rfl,
      canonical_infix_iff e he a (hcan a (by simp))]
    simp
  | a :: b :: t, hcan => by
    have hsplit : (pyJoin "; " (a :: b :: t)).data =
        a.data ++ ';' :: ' ' :: (pyJoin "; " (b :: t)).data := by
      rw [show pyJoin "; " (a :: b :: t) = a ++ "; " ++ pyJoin "; " (b :: t) from rfl]
      simp
    rw [hsplit, infix_append_cons (canonical_props e he).1, List.infix_cons_iff]
    have hprefix : ¬ e.data <+: (' ' :: (pyJoin "; " (b :: t)).data) := by
      intro h
      rcases hE : e.data with _ | ⟨y, ey⟩
      · exact absurd hE (canonical_props e he).2.1
      · rw [hE] at h
        rcases List.cons_prefix_cons.mp h with ⟨hy, _⟩
        have : e.data.head? = some ' ' := by rw [hE, hy]; rfl
        exact absurd this (canonical_props e he).2.2
    have hrest := infix_pyJoin_iff e he (b :: t)
      (fun x hx => hcan x (List.mem_cons_of_mem a hx))
    constructor
    · rintro (h | h | h)
      · have := (canonical_infix_iff e he a (hcan a (by simp))).mp h
        simp [this]
      · exact absurd h hprefix
      · exact List.mem_cons_of_mem a (hrest.mp h)
    · intro h
      rcases List.mem_cons.mp h with h1 | h2
      · subst h1
        exact Or.inl List.infix_rfl
      · exact Or.inr (Or.inr (hrest.mpr h2))

/-! ### Splitting the joined message recovers the reasons -/

theorem pySplitSC_append_no_semi (e : List Char) (acc l : List Char)
    (he : ∀ c ∈ e, c ≠ ';') :
    pySplitSC acc (e ++ l) = pySplitSC (e.reverse ++ acc) l := by
  induction e generalizing acc with
  | nil => simp
  | cons c e' ih =>
    have hcond : ¬(c = ';' ∧ ((e' ++ l).head? = some ' ')) :=
      fun h => (he c (by simp)) h.1
    rw [List.cons_append]
    rw [show pySplitSC acc (c :: (e' ++ l)) = pySplitSC (c :: acc) (e' ++ l) by
      rw [pySplitSC]
      exact if_neg hcond]
    rw [ih (c :: acc) (fun x hx => he x (List.mem_cons_of_mem c hx))]
    simp

theorem pySplitSC_sep (acc l : List Char) :
    pySplitSC acc (';' :: ' ' :: l) = acc.reverse :: pySplitSC [] l := by
  rw [pySplitSC]
  rw [if_pos ⟨rfl, rfl⟩]
  rfl

theorem pySplit_pyJoin : ∀ (errs : List String), errs ≠ [] →
    (∀ e ∈ errs, ∀ c ∈ e.data, c ≠ ';') →
    pySplit (pyJoin "; " errs) = errs
  | [], hne, _ => absurd rfl hne
  | [a], _, hsemi => by
    unfold pySplit
    rw [show pyJoin "; " [a] = a from rfl]
    have h := pySplitSC_append_no_semi a.data [] [] (hsemi a (by simp))
    simp only [List.append_nil] at h
    rw [h]
    rw [show pySplitSC a.data.reverse [] = [a.data.reverse.reverse] from by
      rw [pySplitSC]]
    simp
  | a :: b :: t, _, hsemi => by
    unfold pySplit
    have hd : (pyJoin "; " (a :: b :: t)).data =
        a.data ++ (';' :: ' ' :: (pyJoin "; " (b :: t)).data) := by
      rw [show pyJoin "; " (a :: b :: t) = a ++ "; " ++ pyJoin "; " (b :: t) from rfl]
      simp
    rw [hd]
    rw [pySplitSC_append_no_semi a.data [] _ (hsemi a (by simp))]
    simp only [List.append_nil]
    rw [pySplitSC_sep]
    rw [List.map_cons]
    simp only [List.reverse_reverse]
    have hrec := pySplit_pyJoin (b :: t) (by simp)
      (fun e hx => hsemi e (List.mem_cons_of_mem a hx))
    unfold pySplit at hrec
    rw [hrec]

/-! ### Field-reason membership lifted to the whole verdict -/

theorem date_mem_validate_row {row : Row} {seen : List String} :
    "Invalid date (dd/mm/yyyy or mm-dd-yyyy)" ∈ (validate_row row seen).1.errors ↔
      (row.date = none ∨ ∃ v, row.date = some v ∧ validate_date v = false) := by
  rw [validate_row_errors]
  simp only [List.mem_append]
  constructor
  · rintro ((((h | h) | h) | h) | h)
    · rcases mem_checkOrderId h with h | h <;> exact absurd h (by decide)
    · exact absurd (mem_checkItem h) (by decide)
    · exact date_mem_checkDate.mp h
    · rcases mem_checkQuantity h with h | h <;> exact absurd h (by decide)
    · rcases mem_checkPrice h with h | h <;> exact absurd h (by decide)
  · intro h
    exact Or.inl (Or.inl (Or.inr (date_mem_checkDate.mpr h)))

theorem invalidQty_mem_validate_row {row : Row} {seen : List String} :
    "Invalid quantity" ∈ (validate_row row seen).1.errors ↔
      row.quantity.bind pyInt? = none := by
  rw [validate_row_errors]
  simp only [List.mem_append]
  constructor
  · rintro ((((h | h) | h) | h) | h)
    · rcases mem_checkOrderId h with h | h <;> exact absurd h (by decide)
    · exact absurd (mem_checkItem h) (by decide)
    · exact absurd (mem_checkDate h) (by decide)
    · exact invalid_mem_checkQuantity.mp h
    · rcases mem_checkPrice h with h | h <;> exact absurd h (by decide)
  · intro h
    exact Or.inl (Or.inr (invalid_mem_checkQuantity.mpr h))

theorem negQty_mem_validate_row {row : Row} {seen : List String} :
    "Negative quantity" ∈ (validate_row row seen).1.errors ↔
      ∃ n, row.quantity.bind pyInt? = some n ∧ n < 0 := by
  rw [validate_row_errors]
  simp only [List.mem_append]
  constructor
  · rintro ((((h | h) | h) | h) | h)
    · rcases mem_checkOrderId h with h | h <;> exact absurd h (by decide)
    · exact absurd (mem_checkItem h) (by decide)
    · exact absurd (mem_checkDate h) (by decide)
    · exact neg_mem_checkQuantity.mp h
    · rcases mem_checkPrice h with h | h <;> exact absurd h (by decide)
  · intro h
    exact Or.inl (Or.inr (neg_mem_checkQuantity.mpr h))

theorem invalidPrice_mem_validate_row {row : Row} {seen : List String} :
    "Invalid price" ∈ (validate_row row seen).1.errors ↔
      row.price.bind pyFloat? = none := by
  rw [validate_row_errors]
  simp only [List.mem_append]
  constructor
  · rintro ((((h | h) | h) | h) | h)
    · rcases mem_checkOrderId h with h | h <;> exact absurd h (by decide)
    · exact absurd (mem_checkItem h) (by decide)
    · exact absurd (mem_checkDate h) (by decide)
    · rcases mem_checkQuantity h with h | h <;> exact absurd h (by decide)
    · exact invalid_mem_checkPrice.mp h
  · intro h
    exact Or.inr (invalid_mem_checkPrice.mpr h)

theorem negPrice_mem_validate_row {row : Row} {seen : List String} :
    "Negative price" ∈ (validate_row row seen).1.errors ↔
      ∃ v, row.price.bind pyFloat? = some v ∧ v.isNeg = true := by
  rw [validate_row_errors]
  simp only [List.mem_append]
  constructor
  · rintro ((((h | h) | h) | h) | h)
    · rcases mem_checkOrderId h with h | h <;> exact absurd h (by decide)
    · exact absurd (mem_checkItem h) (by decide)
    · exact absurd (mem_checkDate h) (by decide)
    · rcases mem_checkQuantity h with h | h <;> exact absurd h (by decide)
    · exact neg_mem_checkPrice.mp h
  · intro h
    exact Or.inr (neg_mem_checkPrice.mpr h)

/-! ### Properties of verdicts produced by the table validator -/

theorem mem_validateTableAux {v : Verdict} :
    ∀ {seen : List String} {rows : List Row}, v ∈ validateTableAux seen rows →
      ∃ r s, v = (validate_row r s).1 := by
  intro seen rows
  induction rows generalizing seen with
  | nil => intro h; simp [validateTableAux] at h
  | cons r rest ih =>
    intro h
    simp only [validateTableAux, List.mem_cons] at h
    rcases h with h | h
    · exact ⟨r, seen, h⟩
    · exact ih h

theorem invalid_verdict_props {rows : List Row} {v : Verdict}
    (hv : v ∈ invalidOf (validate_table rows)) :
    v.errors ≠ [] ∧ v.message = pyJoin "; " v.errors ∧
      ∀ e ∈ v.errors, e ∈ canonicalReasons := by
  rcases List.mem_filter.mp hv with ⟨hmem, hstat⟩
  rcases mem_validateTableAux hmem with ⟨r, s, rfl⟩
  have hsi : (validate_row r s).1.status = "Invalid" := by
    simpa using hstat
  have hne := (validate_row_invalid_iff r s).mp hsi
  exact ⟨hne, validate_row_message_of_invalid r s hne,
    fun e he => errors_canonical r s he⟩

/-! ### Claim theorems -/

/-- C1: in a single validation run, a row whose identifier is present is
flagged "Duplicate order_id" if and only if the same identifier value
appears in some earlier row of the table; in particular the first
occurrence is never flagged. -/
theorem c1_duplicate_iff_earlier (rows : List Row) (i : Nat) (oid : String)
    (h : i < rows.length)
    (hoid : (rows.getD i default).order_id = some oid) :
    "Duplicate order_id" ∈ ((validate_table rows).getD i default).errors ↔
      ∃ j, j < i ∧ (rows.getD j default).order_id = some oid := by
  rw [validate_table_getD rows i h, dup_mem_validate_row]
  constructor
  · rintro ⟨v, hv, hmem⟩
    rw [hoid] at hv
    injection hv with hv
    subst hv
    exact mem_seenUpTo.mp hmem
  · intro hj
    exact ⟨oid, hoid, mem_seenUpTo.mpr hj⟩

/-- Witness for C1 at the identifier sequence [A, A, B]: the second row is
flagged duplicate (because row 0 has the same identifier). -/
theorem c1_duplicate_iff_earlier_witness :
    "Duplicate order_id" ∈ ((validate_table rowsAAB).getD 1 default).errors ∧
    (1 : Nat) < rowsAAB.length ∧ (rowsAAB.getD 1 default).order_id = some "A" :=
  ⟨(c1_duplicate_iff_earlier rowsAAB 1 "A" (by decide) rfl).mpr ⟨0, by decide, rfl⟩,
    by decide, rfl⟩

/-- C2: the row validator accumulates the reasons of all five field checks
in the fixed order identifier, item, date, quantity, price, and the verdict
status is "Invalid" exactly when the accumulated reasons are non-empty and
"Valid" exactly when they are empty. -/
theorem c2_checks_order_and_status (row : Row) (seen : List String) :
    (validate_row row seen).1.errors =
      checkOrderId row.order_id seen ++ checkItem row.item ++
        checkDate row.date ++ checkQuantity row.quantity ++
        checkPrice row.price ∧
    ((validate_row row seen).1.status = "Invalid" ↔
      (validate_row row seen).1.errors ≠ []) ∧
    ((validate_row row seen).1.status = "Valid" ↔
      (validate_row row seen).1.errors = []) :=
  ⟨validate_row_errors row seen, validate_row_invalid_iff row seen,
    validate_row_valid_iff row seen⟩

/-- C7: table validation produces exactly one verdict per record: the
verdict list has the same length as the record list, and the i-th verdict
is the row validation of the i-th record under the session state
accumulated from the records before it. -/
theorem c7_one_verdict_per_record (rows : List Row) :
    (validate_table rows).length = rows.length ∧
    ∀ i, i < rows.length →
      (validate_table rows).getD i default =
        (validate_row (rows.getD i default) (seenUpTo rows i)).1 :=
  ⟨validate_table_length rows, fun i hi => validate_table_getD rows i hi⟩

/-- Witness for C7 on the three-row table [A, A, B], at index 1. -/
theorem c7_one_verdict_per_record_witness :
    (validate_table rowsAAB).length = rowsAAB.length ∧
    (validate_table rowsAAB).getD 1 default =
      (validate_row (rowsAAB.getD 1 default) (seenUpTo rowsAAB 1)).1 :=
  ⟨(c7_one_verdict_per_record rowsAAB).1,
    (c7_one_verdict_per_record rowsAAB).2 1 (by decide)⟩

/-- C10: an empty selection makes the error filter return the entire
invalid record set unchanged. -/
theorem c10_empty_selection_returns_all (rows : List Row) :
    filter_by_reasons (invalidOf (validate_table rows)) [] =
      invalidOf (validate_table rows) := by
  simp [filter_by_reasons]

/-- C3: the date reason is produced exactly when the value (if any) parses
under neither of the two fixed patterns day/month/year with '/' and
month-day/year with '-'; concretely "31/12/2024" and "12-31-2024" pass and
"2024/12/31" fails. -/
theorem c3_date_two_formats :
    (∀ (row : Row) (seen : List String),
      ("Invalid date (dd/mm/yyyy or mm-dd-yyyy)" ∈ (validate_row row seen).1.errors ↔
        ¬ ∃ v, row.date = some v ∧
          (strptimeOk ⟨'/', DateOrder.dmy⟩ v = true ∨
            strptimeOk ⟨'-', DateOrder.mdy⟩ v = true))) ∧
    validate_date "31/12/2024" = true ∧
    validate_date "12-31-2024" = true ∧
    validate_date "2024/12/31" = false := by
  refine ⟨fun row seen => ?_, rfl, rfl, rfl⟩
  rw [date_mem_validate_row]
  have hvd : ∀ v : String, validate_date v =
      (strptimeOk ⟨'/', DateOrder.dmy⟩ v || strptimeOk ⟨'-', DateOrder.mdy⟩ v) := by
    intro v
    simp [validate_date, dateFormats]
  cases hd : row.date with
  | none => simp
  | some v =>
    cases h1 : strptimeOk ⟨'/', DateOrder.dmy⟩ v <;>
      cases h2 : strptimeOk ⟨'-', DateOrder.mdy⟩ v <;>
        simp [hvd v, h1, h2]

/-- C4: the quantity and price reasons: "Invalid ..." is produced exactly
when the direct numeric-literal parse fails, "Negative ..." exactly when
the parse succeeds with a negative value; concretely quantity "-5" gives
"Negative quantity" and quantity "abc" gives "Invalid quantity". -/
theorem c4_numeric_reasons :
    (∀ (row : Row) (seen : List String),
      ("Invalid quantity" ∈ (validate_row row seen).1.errors ↔
        row.quantity.bind pyInt? = none) ∧
      ("Negative quantity" ∈ (validate_row row seen).1.errors ↔
        ∃ n, row.quantity.bind pyInt? = some n ∧ n < 0) ∧
      ("Invalid price" ∈ (validate_row row seen).1.errors ↔
        row.price.bind pyFloat? = none) ∧
      ("Negative price" ∈ (validate_row row seen).1.errors ↔
        ∃ v, row.price.bind pyFloat? = some v ∧ v.isNeg = true)) ∧
    "Negative quantity" ∈ (validate_row qtyNegRow []).1.errors ∧
    "Invalid quantity" ∈ (validate_row qtyAbcRow []).1.errors := by
  refine ⟨fun row seen => ⟨invalidQty_mem_validate_row, negQty_mem_validate_row,
    invalidPrice_mem_validate_row, negPrice_mem_validate_row⟩, ?_, ?_⟩
  · decide
  · decide

/-- Counterexample to C5: a blank (empty-string) identifier passes the
`pd.isna` presence check, so the first blank row is not flagged
"Missing order_id" and a second blank row is flagged "Duplicate order_id",
contradicting the claim for blank identifiers. -/
theorem c5_counterexample :
    blankIdRow.order_id = some "" ∧
    "Missing order_id" ∉
      ((validate_table [blankIdRow, blankIdRow]).getD 0 default).errors ∧
    "Duplicate order_id" ∈
      ((validate_table [blankIdRow, blankIdRow]).getD 1 default).errors := by
  refine ⟨rfl, ?_, ?_⟩ <;> decide

/-- C5 amended: a record whose identifier is absent (null/NaN) always gets
"Missing order_id" and never "Duplicate order_id"; a blank-but-present
identifier is not flagged missing and participates in duplicate
detection. -/
theorem c5_absent_id_missing_not_duplicate (row : Row) (seen : List String)
    (h : row.order_id = none) :
    "Missing order_id" ∈ (validate_row row seen).1.errors ∧
    "Duplicate order_id" ∉ (validate_row row seen).1.errors := by
  constructor
  · exact missing_mem_validate_row.mpr h
  · intro hd
    rcases dup_mem_validate_row.mp hd with ⟨v, hv, _⟩
    rw [h] at hv
    exact Option.noConfusion hv

/-- Witness for the amended C5 at a concrete absent-identifier row. -/
theorem c5_absent_id_missing_not_duplicate_witness :
    "Missing order_id" ∈ (validate_row absentIdRow []).1.errors ∧
    "Duplicate order_id" ∉ (validate_row absentIdRow []).1.errors :=
  c5_absent_id_missing_not_duplicate absentIdRow [] rfl

/-- Counterexample to C6: on a table with one valid and one invalid row
the code's validation_rate is 50 (valid / total * 100), which differs from
valid_count / total = 1/2 as the claim states it. -/
theorem c6_counterexample :
    validCount (validate_table mixedRows) = 1 ∧
    (validate_table mixedRows).length = 2 ∧
    validation_rate (validate_table mixedRows) = 50 ∧
    validation_rate (validate_table mixedRows) ≠
      (validCount (validate_table mixedRows) : ℚ) /
        ((validate_table mixedRows).length : ℚ) := by
  have h1 : validCount (validate_table mixedRows) = 1 := by decide
  have h2 : (validate_table mixedRows).length = 2 := by decide
  have h3 : validation_rate (validate_table mixedRows) = 50 := by
    unfold validation_rate
    rw [h1, h2]
    norm_num
  refine ⟨h1, h2, h3, ?_⟩
  rw [h3, h1, h2]
  norm_num

/-- C6 amended: validation_rate is valid_count / total * 100 (a percentage)
when total > 0, and exactly 0 when total = 0 (no division fault). -/
theorem c6_rate_formula (vs : List Verdict) :
    (0 < vs.length → validation_rate vs =
      (validCount vs : ℚ) / (vs.length : ℚ) * 100) ∧
    (vs.length = 0 → validation_rate vs = 0) := by
  constructor
  · intro h
    simp [validation_rate, h]
  · intro h
    simp [validation_rate, h]

/-- Witness for the amended C6 on a concrete two-row table. -/
theorem c6_rate_formula_witness :
    validation_rate (validate_table mixedRows) =
      (validCount (validate_table mixedRows) : ℚ) /
        ((validate_table mixedRows).length : ℚ) * 100 :=
  (c6_rate_formula (validate_table mixedRows)).1 (by decide)

/-- C8: with a non-empty selection of reason strings, the error filter
returns exactly the invalid records whose reasons contain at least one
selected reason (union/OR semantics), in their original order. -/
theorem c8_filter_or_semantics (rows : List Row) (selected : List String)
    (hne : selected ≠ [])
    (hsel : ∀ s ∈ selected, s ∈ canonicalReasons) :
    filter_by_reasons (invalidOf (validate_table rows)) selected =
      (invalidOf (validate_table rows)).filter
        (fun v => selected.any (fun s => v.errors.contains s)) := by
  unfold filter_by_reasons
  rw [if_neg (fun hI => hne (List.isEmpty_eq_true.mp hI))]
  apply List.filter_congr
  intro v hv
  obtain ⟨hneerrs, hmsg, hcanon⟩ := invalid_verdict_props hv
  rw [Bool.eq_iff_iff]
  simp only [List.any_eq_true]
  constructor
  · rintro ⟨err, herr, hin⟩
    refine ⟨err, herr, ?_⟩
    rw [contains_iff_mem]
    have hinfix : err.data <:+: v.message.data := by
      simpa [pyInStr] using hin
    rw [hmsg] at hinfix
    exact (infix_pyJoin_iff err (hsel err herr) v.errors hcanon).mp hinfix
  · rintro ⟨s, hs, hcont⟩
    refine ⟨s, hs, ?_⟩
    have hmem := contains_iff_mem.mp hcont
    have hinfix : s.data <:+: (pyJoin "; " v.errors).data :=
      (infix_pyJoin_iff s (hsel s hs) v.errors hcanon).mpr hmem
    simp [pyInStr, hmsg, hinfix]

/-- Witness for C8: selecting the single reason "Missing item" on a table
whose invalid rows carry "Missing item" and the date reason. -/
theorem c8_filter_or_semantics_witness :
    filter_by_reasons (invalidOf (validate_table filterRows)) ["Missing item"] =
      (invalidOf (validate_table filterRows)).filter
        (fun v => (["Missing item"] : List String).any
          (fun s => v.errors.contains s)) :=
  c8_filter_or_semantics filterRows ["Missing item"] (by decide) (by decide)

/-- C9: aggregate-then-refilter round trip: a verdict is in the invalid
subset iff some reason key of the error-frequency report recovers it by
single-reason filtering, so the union of the single-reason filters over
all report keys is exactly the invalid subset. -/
theorem c9_roundtrip (rows : List Row) (v : Verdict) :
    v ∈ invalidOf (validate_table rows) ↔
      ∃ k ∈ errorKeys (validate_table rows),
        v ∈ filter_by_reasons (invalidOf (validate_table rows)) [k] := by
  constructor
  · intro hv
    obtain ⟨hneerrs, hmsg, hcanon⟩ := invalid_verdict_props hv
    obtain ⟨k, hk⟩ := List.exists_mem_of_ne_nil v.errors hneerrs
    have hsemi : ∀ e ∈ v.errors, ∀ c ∈ e.data, c ≠ ';' := by
      intro e he c hc hcsemi
      subst hcsemi
      exact (canonical_props e (hcanon e he)).1 hc
    refine ⟨k, ?_, ?_⟩
    · unfold errorKeys errorList
      rw [List.mem_dedup]
      apply List.mem_flatten.mpr
      refine ⟨pySplit v.message, List.mem_map_of_mem _ hv, ?_⟩
      rw [hmsg, pySplit_pyJoin v.errors hneerrs hsemi]
      exact hk
    · unfold filter_by_reasons
      rw [if_neg (by simp)]
      apply List.mem_filter.mpr
      refine ⟨hv, ?_⟩
      have hinfix : k.data <:+: v.message.data := by
        rw [hmsg]
        exact (infix_pyJoin_iff k (hcanon k hk) v.errors hcanon).mpr hk
      simp [pyInStr, hinfix]
  · rintro ⟨k, _, hvf⟩
    unfold filter_by_reasons at hvf
    rw [if_neg (by simp)] at hvf
    exact (List.mem_filter.mp hvf).1

end WhimcMP
